import Mathlib

/-!
Verification of the prop-scope library (src/src/index.ts).

The library exports one function, withProps(source, overwrites, callback),
and two sentinel symbols, IGNORE and REMEMBER.  withProps snapshots the
original values of the overwritten keys, writes the proposed values onto
the source object, runs the callback with the snapshot, and in a finally
block writes every snapshotted key back onto the source.

The shallow embedding below models JavaScript objects as association lists
of string keys and values; reading an absent property yields the value
`undefined`, exactly as in JavaScript.  The two sentinels are distinguished
constructors of the value type, matching their unforgeable-symbol role.
The callback is modelled as a function from the snapshot object and the
current source object to a result (normal value or thrown value) together
with the source object and the snapshot object as the callback left them:
this state-passing style encodes the fact that the callback may mutate both
the source object and the snapshot object it was handed.
-/

set_option maxHeartbeats 1000000

namespace PropScope

/-- JavaScript runtime values, as far as the library distinguishes them.
IGNORE and REMEMBER are the two sentinel symbols exported by the library;
making them constructors models their global uniqueness (a symbol is
distinct from every other runtime value). -/
inductive JVal where
  | undef : JVal
  | null : JVal
  | bool : Bool → JVal
  | num : Int → JVal
  | str : String → JVal
  | IGNORE : JVal
  | REMEMBER : JVal
  deriving DecidableEq, Repr

abbrev Key := String

/-- A JavaScript object: an ordered association list of properties.
A key occurring in the list is a present property; a key not occurring is
an absent property. -/
abbrev JObj := List (Key × JVal)

/-- Raw property access: some v when the property is present, none when
absent.  Models the JavaScript `k in o` / own-property distinction. -/
def lookupProp : JObj → Key → Option JVal
  | [], _ => none
  | (k1, v) :: rest, k => if k1 = k then some v else lookupProp rest k

/-- JavaScript property read `o[k]`: an absent property reads as undefined. -/
def getProp (o : JObj) (k : Key) : JVal :=
  (lookupProp o k).getD JVal.undef

/-- JavaScript `k in o`. -/
def hasProp (o : JObj) (k : Key) : Bool :=
  (lookupProp o k).isSome

/-- JavaScript property write `o[k] = v`: updates the property in place if
present, otherwise appends it (property creation). -/
def setProp : JObj → Key → JVal → JObj
  | [], k, v => [(k, v)]
  | (k1, v1) :: rest, k, v =>
      if k1 = k then (k1, v) :: rest else (k1, v1) :: setProp rest k v

/-- The overwrites argument is itself a JavaScript object. -/
abbrev Overwrites := JObj

/-- The keys of an object in iteration order, Object.keys(o). -/
def objKeys (o : JObj) : List Key := o.map Prod.fst

/-- The first loop of withProps, iterating over Object.keys(overwrites):
for each key, if its proposed value is REMEMBER, record the current source
value in the snapshot without writing; if it is IGNORE, do nothing;
otherwise record the current source value in the snapshot and write the
proposed value onto the source.  Returns the snapshot (originalValues) and
the mutated source. -/
def applyOW (ow : Overwrites) (snap : JObj) (src : JObj) : List Key → JObj × JObj
  | [] => (snap, src)
  | k :: ks =>
      let value := getProp ow k
      if value = JVal.REMEMBER then
        applyOW ow (setProp snap k (getProp src k)) src ks
      else if value = JVal.IGNORE then
        applyOW ow snap src ks
      else
        applyOW ow (setProp snap k (getProp src k)) (setProp src k value) ks

/-- The snapshot and overwritten source produced by the first loop of
withProps, starting from the empty originalValues object. -/
def applyOverwrites (src : JObj) (ow : Overwrites) : JObj × JObj :=
  applyOW ow [] src (objKeys ow)

/-- The finally-block loop of withProps: for each key of the overwrites
object, if the key is present in the snapshot, write the snapshot's value
for it back onto the source. -/
def restoreKeys (snap : JObj) (src : JObj) : List Key → JObj
  | [] => src
  | k :: ks =>
      restoreKeys snap
        (if hasProp snap k then setProp src k (getProp snap k) else src) ks

/-- Restoration over all keys of the overwrites object. -/
def restore (src : JObj) (ow : Overwrites) (snap : JObj) : JObj :=
  restoreKeys snap src (objKeys ow)

/-- What a callback invocation produces: a result (normal return .ok or a
thrown value .error), the source object as the callback left it, and the
snapshot object as the callback left it (the callback holds a mutable
reference to the snapshot it was handed). -/
structure CallResult (E U : Type) where
  res : Except E U
  obj : JObj
  snap : JObj

/-- withProps: build the snapshot while overwriting, invoke the callback
with the snapshot, and regardless of the callback's outcome restore every
snapshotted key from the snapshot object as the callback left it.  Returns
the callback's result (normal or thrown) together with the final state of
the source object. -/
def withProps {E U : Type} (src : JObj) (ow : Overwrites)
    (f : JObj → JObj → CallResult E U) : Except E U × JObj :=
  let a := applyOverwrites src ow
  let c := f a.1 a.2
  (c.res, restore c.obj ow c.snap)

/-!
Fallible-write model.  In JavaScript a property write can throw (a frozen
object, a rejecting setter).  To settle the claims about restoration
failure we refine the model: an object carries a set of keys whose write
throws a TypeError.  The callback may change that set (e.g. by freezing
the object), which is how a restore-time failure arises after a successful
overwrite phase.  The control flow mirrors the source exactly: the
overwrite loop runs outside the try, so a failure there propagates with no
restoration; the restore loop runs in the finally block with no per-key
handler, so its first failure aborts the loop and, per JavaScript finally
semantics, replaces whatever result or failure was in flight.
-/

/-- Failures: a value thrown by the callback, or a TypeError from writing
property k. -/
inductive JErr where
  | thrown : JVal → JErr
  | typeError : Key → JErr
  deriving DecidableEq, Repr

/-- An object together with the set of keys whose write currently throws. -/
structure FObj where
  props : JObj
  frozen : List Key
  deriving DecidableEq, Repr

/-- Fallible property write: throws a TypeError when the key is frozen. -/
def setPropF (o : FObj) (k : Key) (v : JVal) : Except JErr FObj :=
  if k ∈ o.frozen then Except.error (JErr.typeError k)
  else Except.ok ⟨setProp o.props k v, o.frozen⟩

/-- The overwrite loop with fallible writes.  The snapshot entry is made
before the write, as in the source; on a write failure the loop stops and
the error is reported with the state reached so far. -/
def applyOWF (ow : Overwrites) (snap : JObj) (o : FObj) :
    List Key → JObj × FObj × Option JErr
  | [] => (snap, o, none)
  | k :: ks =>
      let value := getProp ow k
      if value = JVal.REMEMBER then
        applyOWF ow (setProp snap k (getProp o.props k)) o ks
      else if value = JVal.IGNORE then
        applyOWF ow snap o ks
      else
        match setPropF o k value with
        | Except.ok o2 => applyOWF ow (setProp snap k (getProp o.props k)) o2 ks
        | Except.error e => (setProp snap k (getProp o.props k), o, some e)

/-- Callback outcome in the fallible model. -/
structure CallResultF (U : Type) where
  res : Except JErr U
  obj : FObj
  snap : JObj

/-- The finally-block loop with fallible writes: the first failing write
aborts the loop (keys after it are not attempted) and is reported with the
state reached so far. -/
def restoreKeysF (snap : JObj) (o : FObj) : List Key → FObj × Option JErr
  | [] => (o, none)
  | k :: ks =>
      if hasProp snap k then
        match setPropF o k (getProp snap k) with
        | Except.ok o2 => restoreKeysF snap o2 ks
        | Except.error e => (o, some e)
      else restoreKeysF snap o ks

/-- withProps in the fallible model.  An overwrite-phase failure propagates
before the try block, so no restoration happens.  Otherwise the callback
runs and the finally block restores; if a restore write throws, that error
replaces the callback's result or failure (JavaScript finally semantics);
if restoration completes, the callback's result propagates. -/
def withPropsF {U : Type} (src : FObj) (ow : Overwrites)
    (f : JObj → FObj → CallResultF U) : Except JErr U × FObj :=
  let a := applyOWF ow [] src (objKeys ow)
  match a.2.2 with
  | some e => (Except.error e, a.2.1)
  | none =>
      let c := f a.1 a.2.1
      let r := restoreKeysF c.snap c.obj (objKeys ow)
      match r.2 with
      | some e => (Except.error e, r.1)
      | none => (c.res, r.1)

/-!
Concrete inputs used by witnesses and counterexamples.
-/

/-- A callback that returns normally, touching neither object. -/
def cbOk : JObj → JObj → CallResult JVal JVal :=
  fun s o => ⟨Except.ok (JVal.num 0), o, s⟩

/-- A callback that throws, touching neither object. -/
def cbThrow : JObj → JObj → CallResult JVal JVal :=
  fun s o => ⟨Except.error (JVal.str "boom"), o, s⟩

/-- A callback that mutates its snapshot argument, setting key a to 99,
then returns normally. -/
def cbMutSnap : JObj → JObj → CallResult JVal JVal :=
  fun s o => ⟨Except.ok JVal.null, o, setProp s "a" (JVal.num 99)⟩

/-- Example object with a = 1, b = 2. -/
def exObjAB : JObj := [("a", JVal.num 1), ("b", JVal.num 2)]

/-- Example overwrites a = 10, b = 20 (plain values). -/
def exOwAB : Overwrites := [("a", JVal.num 10), ("b", JVal.num 20)]

/-- Example overwrites for the REMEMBER counterexample. -/
def exOwRem : Overwrites := [("a", JVal.REMEMBER)]

/-- Example object for the REMEMBER counterexample. -/
def exObjA : JObj := [("a", JVal.num 1)]

/-- Example overwrites creating key a on an empty object. -/
def exOwCreate : Overwrites := [("a", JVal.num 1)]

/-- Example overwrites with an IGNORE-marked key b. -/
def exOwIg : Overwrites := [("a", JVal.num 10), ("b", JVal.IGNORE)]

/-- Fallible-model source for the restoration-failure scenario: a = 1 and
b = 2, nothing frozen at entry. -/
def exSrcF : FObj := ⟨[("a", JVal.num 1), ("b", JVal.num 2)], []⟩

/-- Fallible-model callback that freezes key a (so restoring a will throw)
and then throws the value "boom". -/
def cbFreezeThrow : JObj → FObj → CallResultF JVal :=
  fun s o => ⟨Except.error (JErr.thrown (JVal.str "boom")), ⟨o.props, ["a"]⟩, s⟩

/-- Inner overwrites for the nesting example. -/
def exOwInner : Overwrites := [("a", JVal.num 3)]

/-- Outer overwrites for the nesting example. -/
def exOwOuter : Overwrites := [("a", JVal.num 2)]

/-- The outer callback of a nested withProps call: it runs the inner
withProps call on the current source and leaves its own snapshot untouched,
modelling a unit of work of the form () => withProps(O, ow2, g). -/
def nestCallback {E U : Type} (ow2 : Overwrites) (g : JObj → JObj → CallResult E U) :
    JObj → JObj → CallResult E U :=
  fun snap o =>
    let r := withProps o ow2 g
    ⟨r.1, r.2, snap⟩

/-!
Basic lemmas about property lookup and assignment.
-/

theorem lookupProp_setProp_self (o : JObj) (k : Key) (v : JVal) :
    lookupProp (setProp o k v) k = some v := by
  induction o with
  | nil => simp [setProp, lookupProp]
  | cons hd t ih =>
    obtain ⟨k1, v1⟩ := hd
    by_cases hk : k1 = k
    · simp [setProp, hk, lookupProp]
    · simp [setProp, hk, lookupProp, ih]

theorem lookupProp_setProp_ne (o : JObj) (k1 k : Key) (v : JVal) (h : k1 ≠ k) :
    lookupProp (setProp o k1 v) k = lookupProp o k := by
  induction o with
  | nil => simp [setProp, lookupProp, h]
  | cons hd t ih =>
    obtain ⟨k2, v2⟩ := hd
    by_cases hk : k2 = k1
    · subst hk; simp [setProp, lookupProp, h]
    · simp [setProp, hk, lookupProp, ih]

theorem lookupProp_isSome_iff (o : JObj) (k : Key) :
    (lookupProp o k).isSome = true ↔ k ∈ objKeys o := by
  induction o with
  | nil => simp [lookupProp, objKeys]
  | cons hd t ih =>
    obtain ⟨k1, v1⟩ := hd
    by_cases hk : k1 = k
    · subst hk; simp [lookupProp, objKeys]
    · simp [lookupProp, objKeys, hk, ih, Ne.symm hk]

theorem mem_of_lookupProp {o : JObj} {k : Key} {v : JVal}
    (h : lookupProp o k = some v) : (k, v) ∈ o := by
  induction o with
  | nil => simp [lookupProp] at h
  | cons hd t ih =>
    obtain ⟨k1, v1⟩ := hd
    by_cases hk : k1 = k
    · subst hk
      simp [lookupProp] at h
      simp [h]
    · simp [lookupProp, hk] at h
      exact List.mem_cons_of_mem _ (ih h)

theorem mem_objKeys_of_mem {o : JObj} {k : Key} {v : JVal}
    (h : (k, v) ∈ o) : k ∈ objKeys o :=
  List.mem_map_of_mem Prod.fst h

theorem exists_mem_of_mem_objKeys {o : JObj} {k : Key}
    (h : k ∈ objKeys o) : ∃ v, (k, v) ∈ o := by
  rcases List.mem_map.mp h with ⟨⟨k1, v1⟩, hmem, hfst⟩
  subst hfst
  exact ⟨v1, hmem⟩

theorem lookupProp_of_mem {o : JObj} {k : Key} {v : JVal}
    (hnd : (objKeys o).Nodup) (h : (k, v) ∈ o) : lookupProp o k = some v := by
  induction o with
  | nil => simp at h
  | cons hd t ih =>
    obtain ⟨k1, v1⟩ := hd
    have hnd2 : k1 ∉ objKeys t ∧ (objKeys t).Nodup := by
      simpa [objKeys, List.nodup_cons] using hnd
    rcases List.mem_cons.mp h with h1 | h1
    · cases h1
      simp [lookupProp]
    · have hk : k1 ≠ k := by
        rintro rfl
        exact hnd2.1 (mem_objKeys_of_mem h1)
      simp [lookupProp, hk]
      exact ih hnd2.2 h1

/-!
Behaviour of the overwrite loop at a fixed key.
-/

theorem applyOW_fst_frame (ow : Overwrites) (ks : List Key) (k : Key) :
    ∀ (snap src : JObj), k ∉ ks →
      lookupProp (applyOW ow snap src ks).1 k = lookupProp snap k := by
  induction ks with
  | nil => intro snap src _; simp [applyOW]
  | cons k1 ks ih =>
    intro snap src hk
    have hk1 : k1 ≠ k := by rintro rfl; exact hk (List.mem_cons_self _ _)
    have hks : k ∉ ks := fun h => hk (List.mem_cons_of_mem _ h)
    simp only [applyOW]
    split
    · rw [ih _ _ hks, lookupProp_setProp_ne _ _ _ _ hk1]
    · split
      · exact ih _ _ hks
      · rw [ih _ _ hks, lookupProp_setProp_ne _ _ _ _ hk1]

theorem applyOW_snd_frame (ow : Overwrites) (ks : List Key) (k : Key) :
    ∀ (snap src : JObj), k ∉ ks →
      lookupProp (applyOW ow snap src ks).2 k = lookupProp src k := by
  induction ks with
  | nil => intro snap src _; simp [applyOW]
  | cons k1 ks ih =>
    intro snap src hk
    have hk1 : k1 ≠ k := by rintro rfl; exact hk (List.mem_cons_self _ _)
    have hks : k ∉ ks := fun h => hk (List.mem_cons_of_mem _ h)
    simp only [applyOW]
    split
    · exact ih _ _ hks
    · split
      · exact ih _ _ hks
      · rw [ih _ _ hks, lookupProp_setProp_ne _ _ _ _ hk1]

theorem applyOW_ig (ow : Overwrites) (ks : List Key) (k : Key)
    (hig : getProp ow k = JVal.IGNORE) :
    ∀ (snap src : JObj),
      lookupProp (applyOW ow snap src ks).1 k = lookupProp snap k ∧
      lookupProp (applyOW ow snap src ks).2 k = lookupProp src k := by
  induction ks with
  | nil => intro snap src; simp [applyOW]
  | cons k1 ks ih =>
    intro snap src
    by_cases hk1 : k1 = k
    · subst hk1
      simp only [applyOW, hig]
      simpa using ih snap src
    · have hne : k1 ≠ k := hk1
      simp only [applyOW]
      split
      · constructor
        · rw [(ih _ _).1, lookupProp_setProp_ne _ _ _ _ hne]
        · exact (ih _ _).2
      · split
        · exact ih _ _
        · constructor
          · rw [(ih _ _).1, lookupProp_setProp_ne _ _ _ _ hne]
          · rw [(ih _ _).2, lookupProp_setProp_ne _ _ _ _ hne]

theorem applyOW_snd_rem (ow : Overwrites) (ks : List Key) (k : Key)
    (hrem : getProp ow k = JVal.REMEMBER) :
    ∀ (snap src : JObj),
      lookupProp (applyOW ow snap src ks).2 k = lookupProp src k := by
  induction ks with
  | nil => intro snap src; simp [applyOW]
  | cons k1 ks ih =>
    intro snap src
    by_cases hk1 : k1 = k
    · subst hk1
      simp only [applyOW, hrem]
      simpa using ih _ _
    · have hne : k1 ≠ k := hk1
      simp only [applyOW]
      split
      · exact ih _ _
      · split
        · exact ih _ _
        · rw [ih _ _, lookupProp_setProp_ne _ _ _ _ hne]

theorem applyOW_fst_mem (ow : Overwrites) (ks : List Key) (k : Key)
    (hig : getProp ow k ≠ JVal.IGNORE) :
    ∀ (snap src : JObj), ks.Nodup → k ∈ ks →
      lookupProp (applyOW ow snap src ks).1 k = some (getProp src k) := by
  induction ks with
  | nil => intro snap src _ hk; simp at hk
  | cons k1 ks ih =>
    intro snap src hnd hk
    have hnd1 : k1 ∉ ks ∧ ks.Nodup := by simpa [List.nodup_cons] using hnd
    by_cases hk1 : k1 = k
    · subst hk1
      have hks : k1 ∉ ks := hnd1.1
      simp only [applyOW]
      split
      · rw [applyOW_fst_frame _ _ _ _ _ hks, lookupProp_setProp_self]
      · rw [applyOW_fst_frame _ _ _ _ _ hks, lookupProp_setProp_self]
    · have hne : k1 ≠ k := hk1
      have hkmem : k ∈ ks := by
        rcases List.mem_cons.mp hk with h | h
        · exact absurd h.symm hk1
        · exact h
      simp only [applyOW]
      split
      · exact ih _ _ hnd1.2 hkmem
      · split
        · exact ih _ _ hnd1.2 hkmem
        · rw [ih _ _ hnd1.2 hkmem]
          rw [getProp, lookupProp_setProp_ne _ _ _ _ hne]
          rfl

theorem applyOW_snd_mem (ow : Overwrites) (ks : List Key) (k : Key)
    (hig : getProp ow k ≠ JVal.IGNORE) (hrem : getProp ow k ≠ JVal.REMEMBER) :
    ∀ (snap src : JObj), ks.Nodup → k ∈ ks →
      lookupProp (applyOW ow snap src ks).2 k = some (getProp ow k) := by
  induction ks with
  | nil => intro snap src _ hk; simp at hk
  | cons k1 ks ih =>
    intro snap src hnd hk
    have hnd1 : k1 ∉ ks ∧ ks.Nodup := by simpa [List.nodup_cons] using hnd
    by_cases hk1 : k1 = k
    · subst hk1
      have hks : k1 ∉ ks := hnd1.1
      simp only [applyOW]
      split
      · exact absurd (by assumption) hrem
      · rw [applyOW_snd_frame _ _ _ _ _ hks, lookupProp_setProp_self]
    · have hne : k1 ≠ k := hk1
      have hkmem : k ∈ ks := by
        rcases List.mem_cons.mp hk with h | h
        · exact absurd h.symm hk1
        · exact h
      simp only [applyOW]
      split
      · exact ih _ _ hnd1.2 hkmem
      · split
        · exact ih _ _ hnd1.2 hkmem
        · exact ih _ _ hnd1.2 hkmem

/-!
Behaviour of the restore loop at a fixed key.
-/

theorem restoreKeys_not_mem (snap : JObj) (ks : List Key) (k : Key) :
    ∀ (src : JObj), k ∉ ks →
      lookupProp (restoreKeys snap src ks) k = lookupProp src k := by
  induction ks with
  | nil => intro src _; simp [restoreKeys]
  | cons k1 ks ih =>
    intro src hk
    have hk1 : k1 ≠ k := by rintro rfl; exact hk (List.mem_cons_self _ _)
    have hks : k ∉ ks := fun h => hk (List.mem_cons_of_mem _ h)
    simp only [restoreKeys]
    rw [ih _ hks]
    split
    · rw [lookupProp_setProp_ne _ _ _ _ hk1]
    · rfl

theorem restoreKeys_not_snap (snap : JObj) (ks : List Key) (k : Key)
    (hp : hasProp snap k = false) :
    ∀ (src : JObj),
      lookupProp (restoreKeys snap src ks) k = lookupProp src k := by
  induction ks with
  | nil => intro src; simp [restoreKeys]
  | cons k1 ks ih =>
    intro src
    by_cases hk1 : k1 = k
    · subst hk1
      simp only [restoreKeys, hp]
      simpa using ih _
    · have hne : k1 ≠ k := hk1
      simp only [restoreKeys]
      rw [ih _]
      split
      · rw [lookupProp_setProp_ne _ _ _ _ hne]
      · rfl

theorem restoreKeys_mem (snap : JObj) (ks : List Key) (k : Key)
    (hp : hasProp snap k = true) :
    ∀ (src : JObj), k ∈ ks →
      lookupProp (restoreKeys snap src ks) k = some (getProp snap k) := by
  induction ks with
  | nil => intro src hk; simp at hk
  | cons k1 ks ih =>
    intro src hk
    by_cases hkmem : k ∈ ks
    · simp only [restoreKeys]
      exact ih _ hkmem
    · have hk1 : k1 = k := by
        rcases List.mem_cons.mp hk with h | h
        · exact h.symm
        · exact absurd h hkmem
      subst hk1
      simp only [restoreKeys, hp]
      simp only [if_true]
      rw [restoreKeys_not_mem _ _ _ _ hkmem, lookupProp_setProp_self]

/-!
Characterisation of the snapshot and the overwritten source.
-/

theorem applyOverwrites_fst_of_mem (src : JObj) (ow : Overwrites) (k : Key) (v : JVal)
    (hnd : (objKeys ow).Nodup) (hkv : (k, v) ∈ ow) (hig : v ≠ JVal.IGNORE) :
    lookupProp (applyOverwrites src ow).1 k = some (getProp src k) := by
  have hlk : lookupProp ow k = some v := lookupProp_of_mem hnd hkv
  have hg : getProp ow k ≠ JVal.IGNORE := by simp [getProp, hlk, hig]
  exact applyOW_fst_mem ow (objKeys ow) k hg [] src hnd (mem_objKeys_of_mem hkv)

theorem applyOverwrites_snd_of_mem (src : JObj) (ow : Overwrites) (k : Key) (v : JVal)
    (hnd : (objKeys ow).Nodup) (hkv : (k, v) ∈ ow)
    (hig : v ≠ JVal.IGNORE) (hrem : v ≠ JVal.REMEMBER) :
    lookupProp (applyOverwrites src ow).2 k = some v := by
  have hlk : lookupProp ow k = some v := lookupProp_of_mem hnd hkv
  have hg : getProp ow k = v := by simp [getProp, hlk]
  have h1 : getProp ow k ≠ JVal.IGNORE := by rw [hg]; exact hig
  have h2 : getProp ow k ≠ JVal.REMEMBER := by rw [hg]; exact hrem
  have := applyOW_snd_mem ow (objKeys ow) k h1 h2 [] src hnd (mem_objKeys_of_mem hkv)
  rw [applyOverwrites, this, hg]

theorem applyOverwrites_fst_none (src : JObj) (ow : Overwrites) (k : Key)
    (h : ∀ v, (k, v) ∈ ow → v = JVal.IGNORE) :
    lookupProp (applyOverwrites src ow).1 k = none := by
  by_cases hk : k ∈ objKeys ow
  · have hsome : (lookupProp ow k).isSome := (lookupProp_isSome_iff ow k).mpr hk
    obtain ⟨v0, hv0⟩ := Option.isSome_iff_exists.mp hsome
    have hv0i : v0 = JVal.IGNORE := h v0 (mem_of_lookupProp hv0)
    have hg : getProp ow k = JVal.IGNORE := by simp [getProp, hv0, hv0i]
    have := (applyOW_ig ow (objKeys ow) k hg [] src).1
    simpa [applyOverwrites, lookupProp] using this
  · have := applyOW_fst_frame ow (objKeys ow) k [] src hk
    simpa [applyOverwrites, lookupProp] using this

theorem applyOverwrites_snd_untouched (src : JObj) (ow : Overwrites) (k : Key)
    (h : ∀ v, (k, v) ∈ ow → v = JVal.IGNORE ∨ v = JVal.REMEMBER) :
    lookupProp (applyOverwrites src ow).2 k = lookupProp src k := by
  by_cases hk : k ∈ objKeys ow
  · have hsome : (lookupProp ow k).isSome := (lookupProp_isSome_iff ow k).mpr hk
    obtain ⟨v0, hv0⟩ := Option.isSome_iff_exists.mp hsome
    have hg : getProp ow k = v0 := by simp [getProp, hv0]
    rcases h v0 (mem_of_lookupProp hv0) with h1 | h1
    · exact (applyOW_ig ow (objKeys ow) k (hg.trans h1) [] src).2
    · exact applyOW_snd_rem ow (objKeys ow) k (hg.trans h1) [] src
  · exact applyOW_snd_frame ow (objKeys ow) k [] src hk

theorem applyOverwrites_fst_key_mem (src : JObj) (ow : Overwrites) (k : Key)
    (h : hasProp (applyOverwrites src ow).1 k = true) : k ∈ objKeys ow := by
  by_contra hk
  have := applyOW_fst_frame ow (objKeys ow) k [] src hk
  rw [hasProp] at h
  rw [applyOverwrites] at h
  simp [this, lookupProp] at h

theorem applyOverwrites_fst_val (src : JObj) (ow : Overwrites) (k : Key)
    (hnd : (objKeys ow).Nodup) (h : hasProp (applyOverwrites src ow).1 k = true) :
    lookupProp (applyOverwrites src ow).1 k = some (getProp src k) := by
  have hk := applyOverwrites_fst_key_mem src ow k h
  by_cases hig : getProp ow k = JVal.IGNORE
  · exfalso
    have := (applyOW_ig ow (objKeys ow) k hig [] src).1
    rw [hasProp] at h
    rw [applyOverwrites] at h
    simp [this, lookupProp] at h
  · exact applyOW_fst_mem ow (objKeys ow) k hig [] src hnd hk

/-!
Characterisation of restoration.
-/

theorem restore_mem (src : JObj) (ow : Overwrites) (snap : JObj) (k : Key)
    (hk : k ∈ objKeys ow) (hp : hasProp snap k = true) :
    lookupProp (restore src ow snap) k = some (getProp snap k) :=
  restoreKeys_mem snap (objKeys ow) k hp src hk

theorem restore_untouched (src : JObj) (ow : Overwrites) (snap : JObj) (k : Key)
    (h : k ∉ objKeys ow ∨ hasProp snap k = false) :
    lookupProp (restore src ow snap) k = lookupProp src k := by
  rcases h with h | h
  · exact restoreKeys_not_mem snap (objKeys ow) k src h
  · exact restoreKeys_not_snap snap (objKeys ow) k h src

/-!
The claims.
-/

/-- Claim C1: for every object, overwrite set without IGNORE or REMEMBER
markers, and callback that returns normally (and, as the spec assumes,
only reads its snapshot argument), withProps restores the object to its
pre-call read value for every key of the overwrite set before returning,
and hands the callback's result to the caller. -/
theorem withProps_restore_after_success {E U : Type} (src : JObj) (ow : Overwrites)
    (f : JObj → JObj → CallResult E U) (u : U)
    (hnd : (objKeys ow).Nodup)
    (hplain : ∀ p ∈ ow, p.2 ≠ JVal.IGNORE ∧ p.2 ≠ JVal.REMEMBER)
    (hsnap : ∀ s o, (f s o).snap = s)
    (hres : (f (applyOverwrites src ow).1 (applyOverwrites src ow).2).res = Except.ok u) :
    (withProps src ow f).1 = Except.ok u ∧
      ∀ k ∈ objKeys ow, getProp (withProps src ow f).2 k = getProp src k := by
  constructor
  · simpa [withProps] using hres
  · intro k hk
    obtain ⟨v, hv⟩ := exists_mem_of_mem_objKeys hk
    have hsnapk : lookupProp (applyOverwrites src ow).1 k = some (getProp src k) :=
      applyOverwrites_fst_of_mem src ow k v hnd hv (hplain _ hv).1
    have hhas : hasProp (applyOverwrites src ow).1 k = true := by
      simp [hasProp, hsnapk]
    have hrest : lookupProp
        (restore (f (applyOverwrites src ow).1 (applyOverwrites src ow).2).obj ow
          (applyOverwrites src ow).1) k
        = some (getProp (applyOverwrites src ow).1 k) :=
      restore_mem _ _ _ _ hk hhas
    simp only [withProps, hsnap]
    simp [getProp, hrest, hsnapk]

/-- Witness for C1 on the concrete input O = (a = 1, b = 2),
W = (a = 10, b = 20), with a trivially succeeding callback. -/
theorem withProps_restore_after_success_witness :
    (withProps exObjAB exOwAB cbOk).1 = Except.ok (JVal.num 0) ∧
      getProp (withProps exObjAB exOwAB cbOk).2 "a" = JVal.num 1 := by
  have h := withProps_restore_after_success exObjAB exOwAB cbOk (JVal.num 0)
    (by decide)
    (by
      intro p hp
      simp only [exOwAB, List.mem_cons, List.not_mem_nil, or_false] at hp
      rcases hp with rfl | rfl <;> exact ⟨by decide, by decide⟩)
    (fun s o => rfl)
    rfl
  exact ⟨h.1, (h.2 "a" (by decide)).trans (by decide)⟩

/-- Claim C2: for every object, overwrite set and callback that throws
(and leaves its snapshot argument as handed to it), withProps restores
every snapshotted key to its pre-call read value and re-raises exactly the
same failure to the caller, neither wrapped nor swallowed nor replaced. -/
theorem withProps_restore_after_failure {E U : Type} (src : JObj) (ow : Overwrites)
    (f : JObj → JObj → CallResult E U) (e : E)
    (hnd : (objKeys ow).Nodup)
    (hsnap : ∀ s o, (f s o).snap = s)
    (herr : (f (applyOverwrites src ow).1 (applyOverwrites src ow).2).res
        = Except.error e) :
    (withProps src ow f).1 = Except.error e ∧
      ∀ k, hasProp (applyOverwrites src ow).1 k = true →
        getProp (withProps src ow f).2 k = getProp src k := by
  constructor
  · simpa [withProps] using herr
  · intro k hk
    have hkmem : k ∈ objKeys ow := applyOverwrites_fst_key_mem src ow k hk
    have hsnapk : lookupProp (applyOverwrites src ow).1 k = some (getProp src k) :=
      applyOverwrites_fst_val src ow k hnd hk
    have hrest : lookupProp
        (restore (f (applyOverwrites src ow).1 (applyOverwrites src ow).2).obj ow
          (applyOverwrites src ow).1) k
        = some (getProp (applyOverwrites src ow).1 k) :=
      restore_mem _ _ _ _ hkmem hk
    simp only [withProps, hsnap]
    simp [getProp, hrest, hsnapk]

/-- Witness for C2 on the concrete input O = (a = 1, b = 2),
W = (a = 10, b = 20), with a callback throwing the value "boom". -/
theorem withProps_restore_after_failure_witness :
    (withProps exObjAB exOwAB cbThrow).1 = Except.error (JVal.str "boom") ∧
      getProp (withProps exObjAB exOwAB cbThrow).2 "b" = JVal.num 2 := by
  have h := withProps_restore_after_failure exObjAB exOwAB cbThrow
    (JVal.str "boom") (by decide) (fun s o => rfl) rfl
  exact ⟨h.1, (h.2 "b" (by decide)).trans (by decide)⟩

/-- Claim C3: the snapshot handed to the callback holds exactly the keys
of the overwrite set whose proposed value is not IGNORE (REMEMBER keys
included), each mapped to the source's read value for that key before
overwriting. -/
theorem withProps_snapshot_correctness (src : JObj) (ow : Overwrites) (k : Key)
    (hnd : (objKeys ow).Nodup) :
    (hasProp (applyOverwrites src ow).1 k = true
        ↔ ∃ v, (k, v) ∈ ow ∧ v ≠ JVal.IGNORE) ∧
      (hasProp (applyOverwrites src ow).1 k = true →
        lookupProp (applyOverwrites src ow).1 k = some (getProp src k)) := by
  constructor
  · constructor
    · intro h
      have hk := applyOverwrites_fst_key_mem src ow k h
      have hsome : (lookupProp ow k).isSome := (lookupProp_isSome_iff ow k).mpr hk
      obtain ⟨v0, hv0⟩ := Option.isSome_iff_exists.mp hsome
      refine ⟨v0, mem_of_lookupProp hv0, ?_⟩
      rintro rfl
      have hnone : lookupProp (applyOverwrites src ow).1 k = none :=
        applyOverwrites_fst_none src ow k
          (fun v hv => by
            have := lookupProp_of_mem hnd hv
            rw [hv0] at this
            exact (Option.some_injective _ this).symm)
      simp [hasProp, hnone] at h
    · rintro ⟨v, hv, hig⟩
      have := applyOverwrites_fst_of_mem src ow k v hnd hv hig
      simp [hasProp, this]
  · exact applyOverwrites_fst_val src ow k hnd

/-- Witness for C3 on the concrete input O = (a = 1, b = 2),
W = (a = 10, b = 20), at key a. -/
theorem withProps_snapshot_correctness_witness :
    hasProp (applyOverwrites exObjAB exOwAB).1 "a" = true ∧
      lookupProp (applyOverwrites exObjAB exOwAB).1 "a" = some (JVal.num 1) := by
  have h := withProps_snapshot_correctness exObjAB exOwAB "a" (by decide)
  have h1 : hasProp (applyOverwrites exObjAB exOwAB).1 "a" = true :=
    h.1.mpr ⟨JVal.num 10, by decide, by decide⟩
  exact ⟨h1, (h.2 h1).trans (by decide)⟩

/-- Counterexample to claim C4 as stated: with O = (a = 1) and
W = (a = REMEMBER), the key a is present in the snapshot, yet at the
moment the unit of work begins the target's value for a is still 1, not
the overwrite set's value for a (the REMEMBER marker). -/
theorem value_at_work_start_cx :
    hasProp (applyOverwrites exObjA exOwRem).1 "a" = true ∧
      getProp exOwRem "a" = JVal.REMEMBER ∧
      getProp (applyOverwrites exObjA exOwRem).2 "a" = JVal.num 1 ∧
      getProp (applyOverwrites exObjA exOwRem).2 "a" ≠ getProp exOwRem "a" := by
  refine ⟨by decide, by decide, by decide, by decide⟩

/-- Claim C4, amended: for every key present in the snapshot whose
proposed value is not the REMEMBER marker, the target's value at the
moment the unit of work begins equals the overwrite set's value for that
key. -/
theorem value_at_work_start (src : JObj) (ow : Overwrites) (k : Key) (v : JVal)
    (hnd : (objKeys ow).Nodup) (hkv : (k, v) ∈ ow)
    (hig : v ≠ JVal.IGNORE) (hrem : v ≠ JVal.REMEMBER) :
    hasProp (applyOverwrites src ow).1 k = true ∧
      getProp (applyOverwrites src ow).2 k = v := by
  constructor
  · have := applyOverwrites_fst_of_mem src ow k v hnd hkv hig
    simp [hasProp, this]
  · have := applyOverwrites_snd_of_mem src ow k v hnd hkv hig hrem
    simp [getProp, this]

/-- Witness for the amended C4 on O = (a = 1, b = 2), W = (a = 10, b = 20),
at key a. -/
theorem value_at_work_start_witness :
    hasProp (applyOverwrites exObjAB exOwAB).1 "a" = true ∧
      getProp (applyOverwrites exObjAB exOwAB).2 "a" = JVal.num 10 :=
  value_at_work_start exObjAB exOwAB "a" (JVal.num 10)
    (by decide) (by decide) (by decide) (by decide)

/-- Counterexample to claim C6 as stated: with an empty object and
W = (a = 1), the key a is absent before the call, but after the call the
property a is present (holding undefined) — restoration wrote undefined
back instead of removing the property. -/
theorem absent_key_restore_cx :
    hasProp ([] : JObj) "a" = false ∧
      hasProp (withProps ([] : JObj) exOwCreate cbOk).2 "a" = true ∧
      lookupProp (withProps ([] : JObj) exOwCreate cbOk).2 "a" = some JVal.undef := by
  refine ⟨rfl, by decide, by decide⟩

/-- Claim C6, amended: a key of the overwrite set (ordinary value) that
does not yet exist on the target is snapshotted as undefined, overwriting
creates the property, and restoration writes undefined back — so after the
call the key reads as undefined (its pre-call read value) but remains
present on the object instead of being removed. -/
theorem absent_key_restore {E U : Type} (src : JObj) (ow : Overwrites)
    (f : JObj → JObj → CallResult E U) (k : Key) (v : JVal)
    (hnd : (objKeys ow).Nodup) (hkv : (k, v) ∈ ow)
    (hig : v ≠ JVal.IGNORE) (hrem : v ≠ JVal.REMEMBER)
    (habs : lookupProp src k = none)
    (hsnap : ∀ s o, (f s o).snap = s) :
    lookupProp (applyOverwrites src ow).1 k = some JVal.undef ∧
      lookupProp (applyOverwrites src ow).2 k = some v ∧
      lookupProp (withProps src ow f).2 k = some JVal.undef := by
  have h1 := applyOverwrites_fst_of_mem src ow k v hnd hkv hig
  have hg : getProp src k = JVal.undef := by simp [getProp, habs]
  rw [hg] at h1
  have h2 := applyOverwrites_snd_of_mem src ow k v hnd hkv hig hrem
  refine ⟨h1, h2, ?_⟩
  have hhas : hasProp (applyOverwrites src ow).1 k = true := by simp [hasProp, h1]
  have hrest := restore_mem
    (f (applyOverwrites src ow).1 (applyOverwrites src ow).2).obj ow
    (applyOverwrites src ow).1 k (mem_objKeys_of_mem hkv) hhas
  simp only [withProps, hsnap]
  rw [hrest]
  simp [getProp, h1]

/-- Witness for the amended C6: creating key a on the empty object leaves
a present with value undefined after the call. -/
theorem absent_key_restore_witness :
    lookupProp (withProps ([] : JObj) exOwCreate cbOk).2 "a" = some JVal.undef := by
  have h := absent_key_restore ([] : JObj) exOwCreate cbOk "a" (JVal.num 1)
    (by decide) (by decide) (by decide) (by decide) rfl (fun s o => rfl)
  exact h.2.2

/-- Claim C7: for a key k with overwrite value REMEMBER (and a callback
that leaves k on the target and its snapshot untouched, as the spec
assumes), k appears in the snapshot mapped to the pre-call value, the
target is never overwritten at k (its property there is untouched by the
overwrite phase), the value restoration writes back equals the value the
object already holds, and after the call k reads as its pre-call value. -/
theorem remember_key {E U : Type} (src : JObj) (ow : Overwrites)
    (f : JObj → JObj → CallResult E U) (k : Key)
    (hnd : (objKeys ow).Nodup)
    (hkv : (k, JVal.REMEMBER) ∈ ow)
    (hsnap : ∀ s o, (f s o).snap = s)
    (hobj : ∀ s o, lookupProp (f s o).obj k = lookupProp o k) :
    lookupProp (applyOverwrites src ow).1 k = some (getProp src k) ∧
      lookupProp (applyOverwrites src ow).2 k = lookupProp src k ∧
      getProp (f (applyOverwrites src ow).1 (applyOverwrites src ow).2).obj k
        = getProp (applyOverwrites src ow).1 k ∧
      getProp (withProps src ow f).2 k = getProp src k := by
  have h1 : lookupProp (applyOverwrites src ow).1 k = some (getProp src k) :=
    applyOverwrites_fst_of_mem src ow k JVal.REMEMBER hnd hkv (by decide)
  have h2 : lookupProp (applyOverwrites src ow).2 k = lookupProp src k := by
    refine applyOverwrites_snd_untouched src ow k (fun v hv => Or.inr ?_)
    have hv1 := lookupProp_of_mem hnd hv
    have hv2 := lookupProp_of_mem hnd hkv
    rw [hv1] at hv2
    exact Option.some_injective _ hv2
  have h3 : getProp (f (applyOverwrites src ow).1 (applyOverwrites src ow).2).obj k
      = getProp (applyOverwrites src ow).1 k := by
    rw [getProp, hobj, h2, getProp, h1]
    rfl
  refine ⟨h1, h2, h3, ?_⟩
  have hhas : hasProp (applyOverwrites src ow).1 k = true := by simp [hasProp, h1]
  have hrest := restore_mem
    (f (applyOverwrites src ow).1 (applyOverwrites src ow).2).obj ow
    (applyOverwrites src ow).1 k (mem_objKeys_of_mem hkv) hhas
  simp only [withProps, hsnap]
  simp [getProp, hrest, h1]

/-- Witness for C7 on O = (a = 1), W = (a = REMEMBER), with a trivially
succeeding callback. -/
theorem remember_key_witness :
    lookupProp (applyOverwrites exObjA exOwRem).1 "a" = some (JVal.num 1) ∧
      getProp (withProps exObjA exOwRem cbOk).2 "a" = JVal.num 1 := by
  have h := remember_key exObjA exOwRem cbOk "a" (by decide) (by decide)
    (fun s o => rfl) (fun s o => rfl)
  exact ⟨h.1.trans (by decide), h.2.2.2.trans (by decide)⟩

/-- Claim C9: a key that is not named in the overwrite set, or whose
proposed value is the IGNORE marker, never appears in the snapshot and is
never written by the scope guard on any exit path: the overwrite phase
leaves its property untouched, and (for a callback that leaves the key and
its snapshot untouched) its property after the call — presence included —
equals its property before the call. -/
theorem untouched_key {E U : Type} (src : JObj) (ow : Overwrites)
    (f : JObj → JObj → CallResult E U) (k : Key)
    (hig : ∀ v, (k, v) ∈ ow → v = JVal.IGNORE)
    (hsnap : ∀ s o, (f s o).snap = s)
    (hobj : ∀ s o, lookupProp (f s o).obj k = lookupProp o k) :
    hasProp (applyOverwrites src ow).1 k = false ∧
      lookupProp (applyOverwrites src ow).2 k = lookupProp src k ∧
      lookupProp (withProps src ow f).2 k = lookupProp src k := by
  have h1 : lookupProp (applyOverwrites src ow).1 k = none :=
    applyOverwrites_fst_none src ow k hig
  have h2 : lookupProp (applyOverwrites src ow).2 k = lookupProp src k :=
    applyOverwrites_snd_untouched src ow k (fun v hv => Or.inl (hig v hv))
  refine ⟨by simp [hasProp, h1], h2, ?_⟩
  have hrest := restore_untouched
    (f (applyOverwrites src ow).1 (applyOverwrites src ow).2).obj ow
    (applyOverwrites src ow).1 k (Or.inr (by simp [hasProp, h1]))
  simp only [withProps, hsnap]
  rw [hrest, hobj, h2]

/-- Witness for C9 on O = (a = 1, b = 2), W = (a = 10, b = IGNORE), at the
IGNORE-marked key b. -/
theorem untouched_key_witness :
    hasProp (applyOverwrites exObjAB exOwIg).1 "b" = false ∧
      lookupProp (withProps exObjAB exOwIg cbOk).2 "b" = some (JVal.num 2) := by
  have h := untouched_key exObjAB exOwIg cbOk "b"
    (by
      intro v hv
      rcases List.mem_cons.mp hv with h | h
      · simp at h
      · rcases List.mem_cons.mp h with h2 | h2
        · simp at h2
          exact h2
        · simp at h2)
    (fun s o => rfl) (fun s o => rfl)
  exact ⟨h.1, h.2.2.trans (by decide)⟩

/-- Claim C10: the snapshot object handed to the callback is the object
restoration later reads: for every key of the overwrite set present in the
snapshot as the callback left it, the target's value after the call equals
the snapshot's value at the moment the callback stopped running — so a
callback that mutates its snapshot argument changes what is restored. -/
theorem snapshot_drives_restore {E U : Type} (src : JObj) (ow : Overwrites)
    (f : JObj → JObj → CallResult E U) (k : Key)
    (hk : k ∈ objKeys ow)
    (hp : hasProp (f (applyOverwrites src ow).1 (applyOverwrites src ow).2).snap k
        = true) :
    getProp (withProps src ow f).2 k
      = getProp (f (applyOverwrites src ow).1 (applyOverwrites src ow).2).snap k := by
  have hrest := restore_mem
    (f (applyOverwrites src ow).1 (applyOverwrites src ow).2).obj ow
    (f (applyOverwrites src ow).1 (applyOverwrites src ow).2).snap k hk hp
  simp only [withProps]
  simp [getProp, hrest]

/-- Witness for C10: the callback overwrites its snapshot entry for a with
99, and the call indeed leaves a = 99 on the target, not the original 1. -/
theorem snapshot_drives_restore_witness :
    getProp (withProps exObjAB exOwAB cbMutSnap).2 "a" = JVal.num 99 := by
  have h := snapshot_drives_restore exObjAB exOwAB cbMutSnap "a"
    (by decide) (by decide)
  exact h.trans (by decide)

/-- Claim C8: when the unit of work of an outer withProps call invokes
withProps again on the same target (modelled by nestCallback), the inner
call's snapshot records the values left by the outer overwrite, the inner
restoration runs inside the outer callback and hence before the outer
restoration, and after the outer call every key overwritten by either
invocation reads as its pre-outer-call value. -/
theorem nested_withProps {E U : Type} (src : JObj) (ow1 ow2 : Overwrites)
    (g : JObj → JObj → CallResult E U)
    (hnd1 : (objKeys ow1).Nodup) (hnd2 : (objKeys ow2).Nodup)
    (hp1 : ∀ p ∈ ow1, p.2 ≠ JVal.IGNORE ∧ p.2 ≠ JVal.REMEMBER)
    (hp2 : ∀ p ∈ ow2, p.2 ≠ JVal.IGNORE ∧ p.2 ≠ JVal.REMEMBER)
    (hg : ∀ s o, (g s o).snap = s) :
    (∀ k ∈ objKeys ow2,
        lookupProp (applyOverwrites (applyOverwrites src ow1).2 ow2).1 k
          = some (getProp (applyOverwrites src ow1).2 k)) ∧
      ∀ k, k ∈ objKeys ow1 ∨ k ∈ objKeys ow2 →
        getProp (withProps src ow1 (nestCallback ow2 g)).2 k = getProp src k := by
  have hfst2 : ∀ k ∈ objKeys ow2,
      lookupProp (applyOverwrites (applyOverwrites src ow1).2 ow2).1 k
        = some (getProp (applyOverwrites src ow1).2 k) := by
    intro k hk
    obtain ⟨v, hv⟩ := exists_mem_of_mem_objKeys hk
    exact applyOverwrites_fst_of_mem _ ow2 k v hnd2 hv (hp2 _ hv).1
  refine ⟨hfst2, ?_⟩
  intro k hk
  have hfinal : (withProps src ow1 (nestCallback ow2 g)).2
      = restore (withProps (applyOverwrites src ow1).2 ow2 g).2 ow1
          (applyOverwrites src ow1).1 := rfl
  rw [hfinal]
  by_cases hk1 : k ∈ objKeys ow1
  · obtain ⟨v, hv⟩ := exists_mem_of_mem_objKeys hk1
    have hsnap1 : lookupProp (applyOverwrites src ow1).1 k = some (getProp src k) :=
      applyOverwrites_fst_of_mem src ow1 k v hnd1 hv (hp1 _ hv).1
    have hhas : hasProp (applyOverwrites src ow1).1 k = true := by
      simp [hasProp, hsnap1]
    have hrest := restore_mem (withProps (applyOverwrites src ow1).2 ow2 g).2 ow1
      (applyOverwrites src ow1).1 k hk1 hhas
    simp [getProp, hrest, hsnap1]
  · have hk2 : k ∈ objKeys ow2 := hk.resolve_left hk1
    have houter : lookupProp
        (restore (withProps (applyOverwrites src ow1).2 ow2 g).2 ow1
          (applyOverwrites src ow1).1) k
        = lookupProp (withProps (applyOverwrites src ow1).2 ow2 g).2 k :=
      restore_untouched _ _ _ _ (Or.inl hk1)
    have hsnap2 : lookupProp (applyOverwrites (applyOverwrites src ow1).2 ow2).1 k
        = some (getProp (applyOverwrites src ow1).2 k) := hfst2 k hk2
    have hhas2 : hasProp (applyOverwrites (applyOverwrites src ow1).2 ow2).1 k = true := by
      simp [hasProp, hsnap2]
    have hinner : lookupProp (withProps (applyOverwrites src ow1).2 ow2 g).2 k
        = some (getProp (applyOverwrites (applyOverwrites src ow1).2 ow2).1 k) := by
      show lookupProp (restore (g _ _).obj ow2 (g _ _).snap) k = _
      rw [hg]
      exact restore_mem _ _ _ _ hk2 hhas2
    have hsrc1 : lookupProp (applyOverwrites src ow1).2 k = lookupProp src k :=
      applyOW_snd_frame ow1 (objKeys ow1) k [] src hk1
    simp [getProp, houter, hinner, hsnap2, hsrc1]

/-- Witness for C8 on O = (a = 1), outer W = (a = 2), inner W = (a = 3):
the inner snapshot records 2 (the value left by the outer overwrite) and
the outer call leaves a = 1. -/
theorem nested_withProps_witness :
    lookupProp (applyOverwrites (applyOverwrites exObjA exOwOuter).2 exOwInner).1 "a"
        = some (JVal.num 2) ∧
      getProp (withProps exObjA exOwOuter (nestCallback exOwInner cbOk)).2 "a"
        = JVal.num 1 := by
  have h := nested_withProps exObjA exOwOuter exOwInner cbOk (by decide) (by decide)
    (by
      intro p hp
      simp only [exOwOuter, List.mem_cons, List.not_mem_nil, or_false] at hp
      subst hp
      exact ⟨by decide, by decide⟩)
    (by
      intro p hp
      simp only [exOwInner, List.mem_cons, List.not_mem_nil, or_false] at hp
      subst hp
      exact ⟨by decide, by decide⟩)
    (fun s o => rfl)
  exact ⟨(h.1 "a" (by decide)).trans (by decide),
    (h.2 "a" (Or.inl (by decide))).trans (by decide)⟩

/-- Counterexample to claim C5 as stated: source (a = 1, b = 2),
overwrites (a = 10, b = 20); the callback freezes key a and throws "boom".
Restoring a fails, and contrary to the claim the other snapshotted key b
is not restored (it stays 20), and the caller observes the restoration
TypeError, not the unit-of-work failure "boom". -/
theorem restore_failure_cx :
    getProp (withPropsF exSrcF exOwAB cbFreezeThrow).2.props "b" = JVal.num 20 ∧
      getProp (withPropsF exSrcF exOwAB cbFreezeThrow).2.props "b" ≠ JVal.num 2 ∧
      (withPropsF exSrcF exOwAB cbFreezeThrow).1 = Except.error (JErr.typeError "a") ∧
      (withPropsF exSrcF exOwAB cbFreezeThrow).1
        ≠ Except.error (JErr.thrown (JVal.str "boom")) := by
  refine ⟨by decide, by decide, rfl, ?_⟩
  intro h
  have h2 : ((withPropsF exSrcF exOwAB cbFreezeThrow).1
      = Except.error (JErr.typeError "a")) := rfl
  rw [h2] at h
  exact absurd (Except.error.inj h) (by decide)

/-- Claim C5, amended: if a write fails while restoring a property,
withProps stops restoring at that key — the object keeps the state reached
so far and snapshotted keys later in the iteration order are not attempted
— and the restoration failure, not the unit-of-work result or failure, is
what the caller observes. -/
theorem withPropsF_restore_failure {U : Type} (src : FObj) (ow : Overwrites)
    (f : JObj → FObj → CallResultF U) (e : JErr) (o2 : FObj)
    (hok : (applyOWF ow [] src (objKeys ow)).2.2 = none)
    (hre : restoreKeysF
        (f (applyOWF ow [] src (objKeys ow)).1
          (applyOWF ow [] src (objKeys ow)).2.1).snap
        (f (applyOWF ow [] src (objKeys ow)).1
          (applyOWF ow [] src (objKeys ow)).2.1).obj
        (objKeys ow) = (o2, some e)) :
    withPropsF src ow f = (Except.error e, o2) ∧
      ∀ (o : FObj) (k : Key) (ks : List Key) (snap : JObj) (e2 : JErr),
        hasProp snap k = true → setPropF o k (getProp snap k) = Except.error e2 →
          restoreKeysF snap o (k :: ks) = (o, some e2) := by
  constructor
  · simp only [withPropsF, hok, hre]
  · intro o k ks snap e2 hp hw
    simp [restoreKeysF, hp, hw]

/-- Witness for the amended C5 on the concrete freeze-and-throw scenario:
the caller observes the TypeError from restoring a, and the object is left
with a = 10 (write rejected) and b = 20 (never attempted). -/
theorem withPropsF_restore_failure_witness :
    withPropsF exSrcF exOwAB cbFreezeThrow
      = (Except.error (JErr.typeError "a"),
          ({ props := [("a", JVal.num 10), ("b", JVal.num 20)], frozen := ["a"] } : FObj)) := by
  have h := withPropsF_restore_failure exSrcF exOwAB cbFreezeThrow
    (JErr.typeError "a")
    ({ props := [("a", JVal.num 10), ("b", JVal.num 20)], frozen := ["a"] } : FObj)
    (by decide) (by decide)
  exact h.1

end PropScope
